import Mathlib

/-!
# Verification of the checkSupport checklist engine

This file gives a shallow embedding, in Lean 4, of the checklist-structure
inference engine of the `checksupport` repository
(`checksupport/fill_checklist.py`): the checklist classifier
(`detect_checklist_type`), the per-variant parsers
(`process_prisma_checklist`, `process_custom_checklist`,
`process_generic_checklist`, with STARD/CONSORT aliasing the generic one),
the guidance resolver (`preprocess_checklist`), the section-text extractor
(`extract_section_text`) and the item-answer resolver
(`generate_item_answer` / `generate_section_answers`).

Embedding conventions:
* Python strings are modelled as `List Char`; Python `str.strip`,
  `str.split`, `str.lower`, `str.isupper`, `str.istitle`, substring
  membership and `str.count` are re-implemented below on `List Char`.
  (`Char.isWhitespace` covers the space, tab, CR and LF characters; Python
  additionally strips the rare `\x0b`/`\x0c` and non-ASCII whitespace,
  which no claim exercises.)
* The LLM service behind `requests.post(OLLAMA_API_URL, ...)` is modelled
  as an oracle.  Each HTTP round-trip either succeeds with a response
  string (the `response` field of the decoded JSON, `''` when absent) or
  fails with one of the exception kinds the code catches
  (`ConnectionError`, `RequestException`, `JSONDecodeError`, or any other
  exception).  A function that makes one call takes that call's outcome
  as an `Except` argument; `preprocess_checklist`, which makes one general
  call and then one call per section, takes a map from call index to
  outcome (index 0 = the general call, index `i+1` = the call for section
  `i`), and additionally reports how many oracle calls it performed, so
  that control flow on failure is observable.  `generate_item_answer`
  returns the prompt it sends together with the cleaned answer, making the
  payload of its single call observable.
-/

set_option maxHeartbeats 1000000

namespace CheckSupport

/-! ## String primitives (Python `str` operations on `List Char`) -/

/-- Python `str.lstrip()` (whitespace only). -/
def lstrip (l : List Char) : List Char :=
  l.dropWhile Char.isWhitespace

/-- Python `str.rstrip()` (whitespace only). -/
def rstrip : List Char → List Char
  | [] => []
  | c :: t => if rstrip t = [] ∧ c.isWhitespace then [] else c :: rstrip t

/-- Python `str.strip()` (whitespace only). -/
def strip (l : List Char) : List Char :=
  lstrip (rstrip l)

/-- Python `str.lower()` (ASCII letters; `Char.toLower` only maps basic
latin letters, which is what every keyword comparison in the code needs). -/
def lowerStr (l : List Char) : List Char :=
  l.map Char.toLower

/-- Python `text.split(sep)` for a one-character separator, keeping empty
pieces, as `content.split('\n')` does. -/
def splitOnChar (sep : Char) : List Char → List (List Char)
  | [] => [[]]
  | c :: rest =>
    if c = sep then [] :: splitOnChar sep rest
    else
      match splitOnChar sep rest with
      | [] => [[c]]
      | piece :: pieces => (c :: piece) :: pieces

/-- Python `needle in haystack` (substring containment). -/
def containsSub (needle haystack : List Char) : Bool :=
  haystack.tails.any fun t => needle.isPrefixOf t

/-- Case-insensitive containment of an already-lowercase pattern, as the
code's `"prisma" in content_lower` checks. -/
def containsCI (pat : String) (l : List Char) : Bool :=
  containsSub pat.toList (lowerStr l)

/-- Everything after the first occurrence of `c`, i.e. Python
`s.split(c, 1)[1]` (callers guard on `c in s`; on absence this returns `[]`). -/
def afterFirstChar (c : Char) : List Char → List Char
  | [] => []
  | x :: rest => if x = c then rest else afterFirstChar c rest

/-- Everything before the first occurrence of `c`, i.e. Python
`s.split(c, 1)[0]`. -/
def takeUntilChar (c : Char) (l : List Char) : List Char :=
  l.takeWhile fun x => x ≠ c

/-- Python `s.split(c, 1)[-1]`: the part after the first `c` when `c`
occurs, the whole string otherwise. -/
def lastPartAfterChar (c : Char) (l : List Char) : List Char :=
  if l.contains c then afterFirstChar c l else l

/-- Python `s.split(sep, 1)` for a multi-character separator: `some (a, b)`
splitting at the first occurrence of `sep`, `none` when `sep` does not
occur (callers guard on `sep in s`). -/
def splitFirstStr (sep : List Char) : List Char → Option (List Char × List Char)
  | [] => none
  | c :: rest =>
    if sep.isPrefixOf (c :: rest) then some ([], (c :: rest).drop sep.length)
    else
      match splitFirstStr sep rest with
      | some (a, b) => some (c :: a, b)
      | none => none

/-- Python `str.isupper()`: at least one cased character and no lowercase
character (ASCII letters are the cased characters that occur here). -/
def isupperStr (l : List Char) : Bool :=
  (l.any Char.isAlpha) && (l.all fun c => ¬ c.isLower)

/-- Helper for `istitle`: `prevCased` records whether the previous character
was cased, `seenCased` whether any cased character has occurred. -/
def istitleAux : List Char → Bool → Bool → Bool
  | [], _, seenCased => seenCased
  | c :: rest, prevCased, seenCased =>
    if c.isUpper then (!prevCased) && istitleAux rest true true
    else if c.isLower then prevCased && istitleAux rest true true
    else istitleAux rest false seenCased

/-- Python `str.istitle()` (ASCII): uppercase letters only follow uncased
characters, lowercase letters only follow cased ones, and at least one
cased character occurs. -/
def istitle (l : List Char) : Bool :=
  istitleAux l false false

/-- Python `line.split()[0]` on an already-stripped non-blank line: the
first whitespace-delimited token. -/
def firstToken (l : List Char) : List Char :=
  l.takeWhile fun c => ¬ c.isWhitespace

/-- Consume the case-insensitive pattern `pat` (given lowercase) from the
front of `l`, returning the rest on success. -/
def dropCI : List Char → List Char → Option (List Char)
  | [], l => some l
  | _ :: _, [] => none
  | p :: ps, c :: cs => if c.toLower = p then dropCI ps cs else none

/-- Consume one-or-more whitespace characters from the front of `l`
(the deterministic reading of the regex `\s+` when followed by a
non-whitespace literal). -/
def wsRun : List Char → Option (List Char)
  | [] => none
  | c :: cs => if c.isWhitespace then some (cs.dropWhile Char.isWhitespace) else none

/-- Does `Title\s+and\s+Abstract` (case-insensitively) match at the front
of `l`? -/
def matchTAAHere (l : List Char) : Bool :=
  match dropCI "title".toList l with
  | none => false
  | some r1 =>
    match wsRun r1 with
    | none => false
    | some r2 =>
      match dropCI "and".toList r2 with
      | none => false
      | some r3 =>
        match wsRun r3 with
        | none => false
        | some r4 => (dropCI "abstract".toList r4).isSome

/-- `re.search(r"Title\s+and\s+Abstract", line, re.IGNORECASE)`. -/
def containsTAA (l : List Char) : Bool :=
  l.tails.any matchTAAHere

/-! ## Data model -/

/-- The format variants `detect_checklist_type` can return (the code uses
the strings `"PRISMA"`, `"STARD"`, `"CONSORT"`, `"custom"`, `"generic"`). -/
inductive ChecklistType where
  | PRISMA
  | STARD
  | CONSORT
  | custom
  | generic
deriving DecidableEq, Repr

/-- A parsed checklist item.  The PRISMA parser appends plain strings to a
section's item list; the custom and generic parsers append
`{"text": ..., "instruction": ...}` dictionaries.  `bare` models the plain
string, `full` the dictionary. -/
inductive ItemShape where
  | bare (text : List Char)
  | full (text instruction : List Char)
deriving DecidableEq, Repr

/-- A parsed checklist section: the dictionaries
`{"section": ..., "items": ..., "guidance": ...}` built by the parsers. -/
structure Section where
  name : List Char
  items : List ItemShape
  guidance : List Char
deriving DecidableEq, Repr

/-- One row of a section's answers: `{"item": ..., "answer": ...}`. -/
structure AnswerRecord where
  item : List Char
  answer : List Char
deriving DecidableEq, Repr

/-- The oracle failure kinds the code distinguishes when a
`requests.post` round-trip fails: `requests.exceptions.ConnectionError`,
any other `requests.exceptions.RequestException` (whose text is carried),
`json.JSONDecodeError`, and any other exception (whose text is carried). -/
inductive OFail where
  | connection
  | request (msg : List Char)
  | decode
  | unexpected (msg : List Char)
deriving DecidableEq, Repr

/-- The default guidance attached to every freshly created section. -/
def defaultGuidance : List Char :=
  "Extract information related to this section from the manuscript.".toList

/-- The default instruction attached to items parsed without an explicit
`::` instruction, and used for bare (PRISMA-style) items. -/
def defaultInstruction : List Char :=
  "Answer based on the manuscript text.".toList

/-- The fixed string returned as general guidance when the general
preprocessing oracle call fails. -/
def fallbackGuidance : List Char :=
  "Failed to obtain preprocessing guidance. Proceeding with default approach.".toList

/-- The fixed substitute for an answer that is empty after cleanup. -/
def notFoundMsg : List Char :=
  "Information not found in the provided text snippet.".toList

/-! ## ChecklistClassifier: `detect_checklist_type` -/

/-- `detect_checklist_type(content)` (fill_checklist.py, lines 75-88). -/
def detect_checklist_type (content : List Char) : ChecklistType :=
  let content_lower := lowerStr content
  if containsSub "prisma".toList content_lower &&
      (containsSub "systematic review".toList content_lower ||
       containsSub "meta-analysis".toList content_lower) then .PRISMA
  else if containsSub "stard".toList content_lower &&
      containsSub "diagnostic accuracy".toList content_lower then .STARD
  else if containsSub "consort".toList content_lower &&
      containsSub "randomized".toList content_lower then .CONSORT
  else if containsSub "::".toList content || decide (5 < content.count '#') then .custom
  else .generic

/-- The five-step first-match-wins reference classifier, written from the
specification's words (§4.1): case-insensitive keyword matching in priority
order PRISMA, STARD, CONSORT, CUSTOM (a `::` delimiter or more than five
`#` characters), otherwise GENERIC. -/
def classifySpec (content : List Char) : ChecklistType :=
  if containsCI "prisma" content &&
      (containsCI "systematic review" content || containsCI "meta-analysis" content) then
    .PRISMA
  else if containsCI "stard" content && containsCI "diagnostic accuracy" content then
    .STARD
  else if containsCI "consort" content && containsCI "randomized" content then
    .CONSORT
  else if containsSub "::".toList content || decide (5 < content.count '#') then
    .custom
  else
    .generic

/-! ## ChecklistParser: the per-variant parsers -/

/-- Is the stripped line one of the PRISMA anchor phrases
(`section_patterns`, matched with `re.search(..., re.IGNORECASE)`)? -/
def prisma_header (l : List Char) : Bool :=
  containsTAA l || containsCI "introduction" l || containsCI "methods" l ||
    containsCI "results" l || containsCI "discussion" l || containsCI "funding" l

/-- `sections[-1]["items"].append(item)` guarded by `if sections:`. -/
def appendItemToLast : List Section → ItemShape → List Section
  | [], _ => []
  | [s], it => [{ s with items := s.items ++ [it] }]
  | s :: rest, it => s :: appendItemToLast rest it

/-- The line loop of `process_prisma_checklist` (lines 104-131).
`hasCur` models the truthiness of `current_section` (headers are non-blank
stripped lines, so once set it stays truthy). -/
def prismaGo : List (List Char) → Bool → List Section → List Section
  | [], _, secs => secs
  | line :: rest, hasCur, secs =>
    let l := strip line
    if l = [] then prismaGo rest hasCur secs
    else if prisma_header l then
      prismaGo rest true (secs ++ [⟨l, [], defaultGuidance⟩])
    else if hasCur then
      if l.contains '#' then
        prismaGo rest hasCur (appendItemToLast secs (.bare (strip (afterFirstChar '#' l))))
      else
        prismaGo rest hasCur (appendItemToLast secs (.bare l))
    else prismaGo rest hasCur secs

/-- `process_prisma_checklist(content)` (fill_checklist.py, lines 90-132). -/
def process_prisma_checklist (content : List Char) : List Section :=
  prismaGo (splitOnChar '\n' content) false []

/-- The line loop of `process_custom_checklist` (lines 150-191):
accumulator `cur` is `current_section`, `items` the in-progress buffer,
`secs` the finished sections. -/
def customGo : List (List Char) → List Char → List ItemShape → List Section → List Section
  | [], cur, items, secs =>
    if items = [] then secs else secs ++ [⟨cur, items, defaultGuidance⟩]
  | line :: rest, cur, items, secs =>
    if strip line = [] ∨ (strip line).head? = some '#' then customGo rest cur items secs
    else
      match splitFirstStr [':', ':'] (strip line) with
      | some (rawItem, rawInstr) =>
        if (strip rawItem).contains ':' ∧
            (takeUntilChar ':' (strip rawItem)).length < 30 then
          if items ≠ [] ∧ cur ≠ [] then
            customGo rest (strip (takeUntilChar ':' (strip rawItem)))
              [ItemShape.full (strip rawItem) (strip rawInstr)]
              (secs ++ [⟨cur, items, defaultGuidance⟩])
          else
            customGo rest (strip (takeUntilChar ':' (strip rawItem)))
              (items ++ [ItemShape.full (strip rawItem) (strip rawInstr)]) secs
        else
          customGo rest cur
            (items ++ [ItemShape.full (strip rawItem) (strip rawInstr)]) secs
      | none =>
        customGo rest cur (items ++ [ItemShape.full (strip line) defaultInstruction]) secs

/-- `process_custom_checklist(content)` (fill_checklist.py, lines 144-192). -/
def process_custom_checklist (content : List Char) : List Section :=
  customGo (splitOnChar '\n' content) "General".toList [] []

/-- The generic section-header heuristic (line 208-210): fully uppercase,
or ending in a colon, or shorter than 50 characters with a title-cased
first token. -/
def generic_header (l : List Char) : Bool :=
  isupperStr l || decide (l.getLast? = some ':') ||
    (decide (l.length < 50) && istitle (firstToken l))

/-- The line loop of `process_generic_checklist` (lines 201-227). -/
def genericGo : List (List Char) → List Char → List ItemShape → List Section → List Section
  | [], cur, items, secs =>
    if items = [] then secs else secs ++ [⟨cur, items, defaultGuidance⟩]
  | line :: rest, cur, items, secs =>
    let l := strip line
    if l = [] then genericGo rest cur items secs
    else if generic_header l then
      if items = [] then genericGo rest l [] secs
      else genericGo rest l [] (secs ++ [⟨cur, items, defaultGuidance⟩])
    else
      genericGo rest cur (items ++ [ItemShape.full l defaultInstruction]) secs

/-- `process_generic_checklist(content)` (fill_checklist.py, lines 194-237). -/
def process_generic_checklist (content : List Char) : List Section :=
  genericGo (splitOnChar '\n' content) "General".toList [] []

/-- `process_stard_checklist` delegates to the generic parser (lines 134-137). -/
def process_stard_checklist (content : List Char) : List Section :=
  process_generic_checklist content

/-- `process_consort_checklist` delegates to the generic parser (lines 139-142). -/
def process_consort_checklist (content : List Char) : List Section :=
  process_generic_checklist content

/-- The variant dispatch of `process_checklist_content` (lines 60-70),
parametrised by the already-detected variant: the spec's
`parse(raw_text, variant)`. -/
def parseChecklist (content : List Char) : ChecklistType → List Section
  | .PRISMA => process_prisma_checklist content
  | .STARD => process_stard_checklist content
  | .CONSORT => process_consort_checklist content
  | .custom => process_custom_checklist content
  | .generic => process_generic_checklist content

/-- `process_checklist_content(content)` (lines 52-73). -/
def process_checklist_content (content : List Char) : List Section :=
  parseChecklist content (detect_checklist_type content)

/-! ## SectionGuidanceResolver: `preprocess_checklist`

The oracle is a map from call index to outcome: index `0` is the general
preprocessing call, index `i + 1` the call for section `i` (the calls are
made strictly in that order).  Besides the updated sections and the
general guidance the embedding returns the number of oracle calls the
function performed, which makes the control flow on a general-call failure
observable: in the source the per-section loop (lines 273-296) lives
inside the `try` block of the general call, so an exception in the
general call jumps straight to the outer `except` (lines 301-303). -/

/-- The per-section update (lines 284-296): on success overwrite the
guidance with the stripped response, on any failure keep the section
unchanged.  Section `i` consumes oracle call `i + 1`. -/
def sectionGuidanceUpdate (oracle : Nat → Except OFail (List Char)) (i : Nat)
    (s : Section) : Section :=
  match oracle (i + 1) with
  | .ok r => { s with guidance := strip r }
  | .error _ => s

/-- The `for i, section in enumerate(sections)` loop (lines 273-296). -/
def applyGuidance (oracle : Nat → Except OFail (List Char)) : Nat → List Section → List Section
  | _, [] => []
  | i, s :: rest => sectionGuidanceUpdate oracle i s :: applyGuidance oracle (i + 1) rest

/-- `preprocess_checklist(sections, manuscript_text, model)`
(fill_checklist.py, lines 239-303).  `manuscript_text` is unused by the
source function as well.  Returns `(sections, general_guidance, calls)`
where `calls` counts the oracle round-trips performed. -/
def preprocess_checklist (sections : List Section) (_manuscript_text : List Char)
    (oracle : Nat → Except OFail (List Char)) : List Section × List Char × Nat :=
  match oracle 0 with
  | .error _ => (sections, fallbackGuidance, 1)
  | .ok resp => (applyGuidance oracle 0 sections, strip resp, 1 + sections.length)

/-! ## ItemAnswerResolver: `extract_section_text`, `generate_item_answer`,
`generate_section_answers` -/

/-- `extract_section_text(section, manuscript_text, model)`
(fill_checklist.py, lines 341-388).  The function makes at most two oracle
calls; `o1` and `o2` are their outcomes (the second is consulted only when
the first succeeds with fewer than 100 characters and the manuscript
exceeds 5000 characters).  The section argument only feeds the prompts and
is otherwise unused. -/
def extract_section_text (_sec : Section) (manuscript_text : List Char)
    (o1 o2 : Except OFail (List Char)) : List Char :=
  match o1 with
  | .error _ => manuscript_text.take 1500
  | .ok r1 =>
    let section_text := strip r1
    if section_text.length < 100 ∧ 5000 < manuscript_text.length then
      match o2 with
      | .error _ => manuscript_text.take 1500
      | .ok r2 => section_text ++ "\n\n".toList ++ strip r2
    else section_text

/-- The final substitution step of the cleanup (lines 433-434): an empty
answer becomes the fixed not-found string. -/
def cleanFinal (a : List Char) : List Char :=
  if a = [] then notFoundMsg else a

/-- The answer cleanup of `generate_item_answer` (lines 428-434): strip the
raw response; if it is empty or starts case-insensitively with `answer:`,
keep only what follows the first `:` (trimmed); if the result is empty,
substitute the fixed not-found string. -/
def clean_answer (raw : List Char) : List Char :=
  cleanFinal
    (if strip raw = [] ∨ "answer:".toList.isPrefixOf (lowerStr (strip raw)) then
      strip (lastPartAfterChar ':' (strip raw))
    else strip raw)

/-- The cleanup rule as the specification words it (§4.4 / §8): everything
up to and including the first `:` of the raw response is stripped and the
result trimmed; if still empty, the fixed not-found string is substituted. -/
def cleanSpec (raw : List Char) : List Char :=
  cleanFinal (strip (lastPartAfterChar ':' raw))

/-- The context built for an item (line 395): extracted section text, a
separator, and the first 1000 characters of the manuscript. -/
def item_context (section_text manuscript_text : List Char) : List Char :=
  section_text ++ "\n\n--- Additional manuscript text ---\n\n".toList ++
    manuscript_text.take 1000

/-- The prompt f-string of `generate_item_answer` (lines 397-411). -/
def item_prompt (item_text instruction section_guidance context_text : List Char) : List Char :=
  "Based on the following manuscript text, provide a concise answer for the checklist item: '".toList ++
    item_text ++
    "'\n\nSpecific instruction for this item: ".toList ++ instruction ++
    "\n\nSection guidance: ".toList ++ section_guidance ++
    "\n\nManuscript Text:\n---\n".toList ++ context_text ++
    "\n---\n\nChecklist Item: ".toList ++ item_text ++
    "\n\nAnswer concisely based only on the provided text. If the information isn't present, state that.\nAnswer: ".toList

/-- `generate_item_answer(item_text, instruction, section_guidance,
general_guidance, manuscript_text, section_text, model)`
(fill_checklist.py, lines 390-454).  `outcome` is the result of the single
oracle call.  Returns the prompt that call sends together with the answer
string; the answer is the cleaned response on success and, per failure
kind, the error strings of the four `except` clauses (note that the
`except Exception` clause, line 454, does not mention the item).
`general_guidance` is a parameter the source never interpolates into the
prompt. -/
def generate_item_answer (item_text instruction section_guidance
    _general_guidance manuscript_text section_text : List Char)
    (outcome : Except OFail (List Char)) : List Char × List Char :=
  let prompt := item_prompt item_text instruction section_guidance
    (item_context section_text manuscript_text)
  let answer :=
    match outcome with
    | .ok raw => clean_answer raw
    | .error .connection =>
      "Error: Ollama connection failed for item '".toList ++ item_text ++ "'".toList
    | .error (.request e) =>
      "Error: Ollama request failed for item '".toList ++ item_text ++ "': ".toList ++ e
    | .error .decode =>
      "Error: Ollama JSON decode failed for item '".toList ++ item_text ++ "'".toList
    | .error (.unexpected e) =>
      "Error generating answer: ".toList ++ e
  (prompt, answer)

/-- The item-shape dispatch of `generate_section_answers` (lines 316-322)
as the specification reads it: a dictionary item carries its own
instruction, a bare string item gets the default instruction and is its
own item text. -/
def resolveItem : ItemShape → List Char × List Char
  | .bare t => (t, defaultInstruction)
  | .full t ins => (t, ins)

/-- The per-item loop of `generate_section_answers` (lines 314-337).
`itemOracle i` is the outcome of the oracle call for the `i`-th item.
Returns the answer records together with the prompts sent, in item order. -/
def answersGo (sg gg m st : List Char) (itemOracle : Nat → Except OFail (List Char)) :
    Nat → List ItemShape → List AnswerRecord × List (List Char)
  | _, [] => ([], [])
  | i, it :: rest =>
    let ti :=
      match it with
      | ItemShape.full tx ins => (tx, ins)
      | ItemShape.bare tx => (tx, defaultInstruction)
    let pa := generate_item_answer ti.1 ti.2 sg gg m st (itemOracle i)
    let r := answersGo sg gg m st itemOracle (i + 1) rest
    (⟨ti.1, pa.2⟩ :: r.1, pa.1 :: r.2)

/-- `generate_section_answers(section, manuscript_text, model,
general_guidance)` (fill_checklist.py, lines 305-339).  `o1`, `o2` are the
outcomes of the (at most two) `extract_section_text` calls and
`itemOracle` the per-item outcomes.  Returns the answer records and the
prompts sent, one of each per item, in order. -/
def generate_section_answers (sec : Section) (manuscript_text general_guidance : List Char)
    (o1 o2 : Except OFail (List Char)) (itemOracle : Nat → Except OFail (List Char)) :
    List AnswerRecord × List (List Char) :=
  let section_text := extract_section_text sec manuscript_text o1 o2
  answersGo sec.guidance general_guidance manuscript_text section_text itemOracle 0 sec.items

/-! ## Helper lemmas -/

theorem isPrefixOf_append_self (t b : List Char) : t.isPrefixOf (t ++ b) = true := by
  induction t with
  | nil => simp
  | cons c t ih => simp [List.isPrefixOf, ih]

theorem containsSub_nil_right (t : List Char) :
    containsSub t [] = t.isPrefixOf [] := by
  simp [containsSub, List.tails]

theorem containsSub_cons (t : List Char) (c : Char) (l : List Char) :
    containsSub t (c :: l) = (t.isPrefixOf (c :: l) || containsSub t l) := by
  simp [containsSub, List.tails_cons]

theorem containsSub_of_isPrefixOf {t l : List Char} (h : t.isPrefixOf l = true) :
    containsSub t l = true := by
  cases l with
  | nil => rw [containsSub_nil_right, h]
  | cons c cs => rw [containsSub_cons, h, Bool.true_or]

theorem containsSub_append_self (a t b : List Char) :
    containsSub t (a ++ (t ++ b)) = true := by
  induction a with
  | nil => exact containsSub_of_isPrefixOf (isPrefixOf_append_self t b)
  | cons c a ih => rw [List.cons_append, containsSub_cons, ih, Bool.or_true]

/-- Invariant of the custom-parse loop: sections already emitted all carry
at least one item, and every flush is guarded by a non-emptiness test. -/
theorem customGo_items_ne_nil (lines : List (List Char)) :
    ∀ (cur : List Char) (items : List ItemShape) (secs : List Section),
      (∀ s ∈ secs, s.items ≠ []) → ∀ s ∈ customGo lines cur items secs, s.items ≠ [] := by
  induction lines with
  | nil =>
    intro cur items secs hsecs s hs
    by_cases hi : items = []
    · rw [customGo, if_pos hi] at hs
      exact hsecs s hs
    · rw [customGo, if_neg hi] at hs
      rcases List.mem_append.mp hs with h | h
      · exact hsecs s h
      · rw [List.mem_singleton] at h
        subst h
        exact hi
  | cons line rest ih =>
    intro cur items secs hsecs s hs
    rw [customGo] at hs
    split at hs
    · exact ih cur items secs hsecs s hs
    · split at hs
      · split at hs
        · split at hs
          · rename_i hne
            refine ih _ _ _ ?_ s hs
            intro s' hs'
            rcases List.mem_append.mp hs' with h | h
            · exact hsecs s' h
            · rw [List.mem_singleton] at h
              subst h
              exact hne.1
          · exact ih _ _ _ hsecs s hs
        · exact ih _ _ _ hsecs s hs
      · exact ih _ _ _ hsecs s hs

/-- Invariant of the generic-parse loop: every flush is guarded by a
non-emptiness test on the item buffer. -/
theorem genericGo_items_ne_nil (lines : List (List Char)) :
    ∀ (cur : List Char) (items : List ItemShape) (secs : List Section),
      (∀ s ∈ secs, s.items ≠ []) → ∀ s ∈ genericGo lines cur items secs, s.items ≠ [] := by
  induction lines with
  | nil =>
    intro cur items secs hsecs s hs
    by_cases hi : items = []
    · rw [genericGo, if_pos hi] at hs
      exact hsecs s hs
    · rw [genericGo, if_neg hi] at hs
      rcases List.mem_append.mp hs with h | h
      · exact hsecs s h
      · rw [List.mem_singleton] at h
        subst h
        exact hi
  | cons line rest ih =>
    intro cur items secs hsecs s hs
    rw [genericGo] at hs
    split at hs
    · exact ih _ _ _ hsecs s hs
    · split at hs
      · split at hs
        · exact ih _ _ _ hsecs s hs
        · next hne =>
          refine ih _ _ _ ?_ s hs
          intro s' hs'
          rcases List.mem_append.mp hs' with h | h
          · exact hsecs s' h
          · rw [List.mem_singleton] at h
            subst h
            exact hne
      · exact ih _ _ _ hsecs s hs

theorem applyGuidance_get? (oracle : Nat → Except OFail (List Char)) :
    ∀ (ss : List Section) (k i : Nat),
      (applyGuidance oracle k ss).get? i =
        (ss.get? i).map (sectionGuidanceUpdate oracle (k + i)) := by
  intro ss
  induction ss with
  | nil => intro k i; simp [applyGuidance]
  | cons s rest ih =>
    intro k i
    cases i with
    | zero => simp [applyGuidance]
    | succ j =>
      have harith : k + 1 + j = k + (j + 1) := by omega
      simpa [applyGuidance, harith] using ih (k + 1) j

theorem answersGo_map_item (sg gg m st : List Char)
    (io : Nat → Except OFail (List Char)) :
    ∀ (items : List ItemShape) (i : Nat),
      (answersGo sg gg m st io i items).1.map AnswerRecord.item =
        items.map fun it => (resolveItem it).1 := by
  intro items
  induction items with
  | nil => intro i; simp [answersGo]
  | cons it rest ih =>
    intro i
    cases it <;> simp [answersGo, resolveItem, ih (i + 1)]

theorem answersGo_prompts (sg gg m st : List Char)
    (io : Nat → Except OFail (List Char)) :
    ∀ (items : List ItemShape) (i : Nat),
      (answersGo sg gg m st io i items).2 =
        items.map fun it =>
          item_prompt (resolveItem it).1 (resolveItem it).2 sg (item_context st m) := by
  intro items
  induction items with
  | nil => intro i; simp [answersGo]
  | cons it rest ih =>
    intro i
    cases it <;> simp [answersGo, resolveItem, generate_item_answer, ih (i + 1)]

/-! ## Claim C1 -/

/-- Claim C1, counterexample: under the PRISMA parser the item text of a
line `#1 Study design` is everything after the first `#`, which is
`1 Study design`, not `Study design` as the claim's expected section
contents state — the leading numeral survives. -/
theorem c1_counterexample :
    ((parseChecklist "Methods\n#1 Study design\n#2 Setting\nResults\n#3 Outcomes".toList
          .PRISMA).map fun s => (s.name, s.items)) =
      [("Methods".toList,
        [ItemShape.bare "1 Study design".toList, ItemShape.bare "2 Setting".toList]),
       ("Results".toList, [ItemShape.bare "3 Outcomes".toList])] ∧
    "1 Study design".toList ≠ "Study design".toList := by
  decide

/-- Claim C1, amended: for the input
`"Methods\n#1 Study design\n#2 Setting\nResults\n#3 Outcomes"` parsed under
the PRISMA variant, parse returns exactly two sections in order, one named
`Methods` with item texts `["1 Study design", "2 Setting"]` and one named
`Results` with item texts `["3 Outcomes"]` (item text being everything
after the first `#`, trimmed, so the item numerals are kept). -/
theorem c1_amended :
    parseChecklist "Methods\n#1 Study design\n#2 Setting\nResults\n#3 Outcomes".toList
        .PRISMA =
      [⟨"Methods".toList,
        [ItemShape.bare "1 Study design".toList, ItemShape.bare "2 Setting".toList],
        defaultGuidance⟩,
       ⟨"Results".toList, [ItemShape.bare "3 Outcomes".toList], defaultGuidance⟩] := by
  decide

/-! ## Claim C2 -/

/-- Claim C2, counterexample: under the PRISMA variant a detected header
line is appended to the output immediately, so the input `"Methods"` yields
a section with zero items — the claim fails for the PRISMA variant. -/
theorem c2_counterexample :
    parseChecklist "Methods".toList .PRISMA =
      [⟨"Methods".toList, [], defaultGuidance⟩] := by
  decide

/-- Claim C2, amended: for every raw input text and every format variant
other than PRISMA (STARD, CONSORT, CUSTOM, GENERIC), every section returned
by parse contains at least one item; under PRISMA a header with no
following item lines yields an empty section. -/
theorem c2_amended (content : List Char) (t : ChecklistType) (ht : t ≠ .PRISMA) :
    ∀ s ∈ parseChecklist content t, s.items ≠ [] := by
  cases t with
  | PRISMA => exact absurd rfl ht
  | STARD =>
    exact genericGo_items_ne_nil _ _ _ _ (by intro s hs; simp at hs)
  | CONSORT =>
    exact genericGo_items_ne_nil _ _ _ _ (by intro s hs; simp at hs)
  | custom =>
    exact customGo_items_ne_nil _ _ _ _ (by intro s hs; simp at hs)
  | generic =>
    exact genericGo_items_ne_nil _ _ _ _ (by intro s hs; simp at hs)

/-- Concrete instantiation of the amended C2 theorem. -/
theorem c2_witness :
    (⟨"A".toList, [ItemShape.full "item".toList defaultInstruction],
        defaultGuidance⟩ : Section).items ≠ [] :=
  c2_amended "A\nitem".toList .generic (by decide) _ (by decide)

/-! ## Claim C3 -/

/-- Claim C3, counterexample: when the general preprocessing call fails,
`preprocess_checklist` returns at once — only one oracle call is made
even though a section is present (whose own call, had it been made, would
have succeeded with `"updated"`), so the per-section pass is skipped;
the fallback string is still returned as general guidance. -/
theorem c3_counterexample :
    (preprocess_checklist [⟨"Methods".toList, [], defaultGuidance⟩] []
          (fun n => if n = 0 then .error .connection else .ok "updated".toList)).2.2 = 1 ∧
    (preprocess_checklist [⟨"Methods".toList, [], defaultGuidance⟩] []
          (fun n => if n = 0 then .error .connection else .ok "updated".toList)).2.2 ≠ 1 + 1 ∧
    (preprocess_checklist [⟨"Methods".toList, [], defaultGuidance⟩] []
          (fun n => if n = 0 then .error .connection else .ok "updated".toList)).2.1 =
      fallbackGuidance ∧
    (preprocess_checklist [⟨"Methods".toList, [], defaultGuidance⟩] []
          (fun n => if n = 0 then .error .connection else .ok "updated".toList)).1 =
      [⟨"Methods".toList, [], defaultGuidance⟩] := by
  decide

/-- Claim C3, amended: if the general-guidance oracle call fails (any
failure kind), guidance resolution returns the fixed fallback string as
`general_guidance` and returns immediately — the sections are returned
unchanged and no per-section oracle call is attempted (exactly one oracle
call is made in total). -/
theorem c3_amended (sections : List Section) (m : List Char)
    (oracle : Nat → Except OFail (List Char)) (e : OFail)
    (h : oracle 0 = .error e) :
    preprocess_checklist sections m oracle = (sections, fallbackGuidance, 1) := by
  simp [preprocess_checklist, h]

/-- Concrete instantiation of the amended C3 theorem. -/
theorem c3_witness :
    preprocess_checklist [⟨"Methods".toList, [], defaultGuidance⟩] []
        (fun _ => .error .connection) =
      ([⟨"Methods".toList, [], defaultGuidance⟩], fallbackGuidance, 1) :=
  c3_amended _ _ _ .connection rfl

/-! ## Claim C4 -/

/-- Claim C4: `detect_checklist_type` equals the five-step first-match-wins
reference classifier from the specification, and satisfies the two quoted
keyword properties: any text case-insensitively containing both `prisma`
and `systematic review` classifies as PRISMA, and any text with more than
five `#` characters and none of the PRISMA/STARD/CONSORT keywords
classifies as CUSTOM. -/
theorem c4_classifier :
    (∀ content : List Char, detect_checklist_type content = classifySpec content) ∧
    (∀ content : List Char,
        containsCI "prisma" content = true →
        containsCI "systematic review" content = true →
        detect_checklist_type content = .PRISMA) ∧
    (∀ content : List Char,
        containsCI "prisma" content = false →
        containsCI "stard" content = false →
        containsCI "consort" content = false →
        5 < content.count '#' →
        detect_checklist_type content = .custom) := by
  refine ⟨fun c => rfl, fun c h1 h2 => ?_, fun c h1 h2 h3 h4 => ?_⟩
  · unfold containsCI at h1 h2
    simp only [detect_checklist_type]
    rw [h1, h2]
    rfl
  · unfold containsCI at h1 h2 h3
    simp only [detect_checklist_type]
    rw [h1, h2, h3]
    simp [h4]

/-- Concrete instantiation of the C4 theorem. -/
theorem c4_witness :
    detect_checklist_type "PRISMA systematic review".toList = .PRISMA :=
  c4_classifier.2.1 _ (by decide) (by decide)

/-! ## Claim C6 -/

/-- Claim C6, counterexample: a per-section oracle call that SUCCEEDS with
a whitespace-only response overwrites the section's guidance with the empty
string, so guidance resolution can leave a section's guidance empty even
though no oracle call failed. -/
theorem c6_counterexample :
    (preprocess_checklist [⟨"Methods".toList, [], defaultGuidance⟩] []
          (fun n => if n = 0 then .ok "general".toList else .ok "   ".toList)).1 =
      [⟨"Methods".toList, [], []⟩] := by
  decide

/-- Claim C6, amended: every section whose per-section oracle call failed
keeps its parse-time guidance unchanged (in particular the non-empty
default), but a section whose call succeeded receives the trimmed oracle
response, which may be empty. -/
theorem c6_amended (sections : List Section) (m : List Char)
    (oracle : Nat → Except OFail (List Char)) (i : Nat) (g : List Char) (e : OFail)
    (hgen : oracle 0 = .ok g) (hsec : oracle (i + 1) = .error e) :
    ((preprocess_checklist sections m oracle).1.get? i).map Section.guidance =
        (sections.get? i).map Section.guidance ∧
      defaultGuidance ≠ [] := by
  constructor
  · simp only [preprocess_checklist, hgen]
    rw [applyGuidance_get?]
    cases h : sections.get? i with
    | none => simp
    | some s => simp [sectionGuidanceUpdate, hsec]
  · decide

/-- Concrete instantiation of the amended C6 theorem. -/
theorem c6_witness :
    ((preprocess_checklist [⟨"Methods".toList, [], defaultGuidance⟩] []
            (fun n => if n = 0 then .ok "general".toList else .error .decode)).1.get? 0).map
        Section.guidance =
      (([⟨"Methods".toList, [], defaultGuidance⟩] : List Section).get? 0).map
        Section.guidance ∧
    defaultGuidance ≠ [] :=
  c6_amended _ _ _ 0 "general".toList .decode rfl rfl

/-! ## Claim C8 -/

/-- Claim C8, counterexample: when the oracle call for an item fails with
an unexpected (catch-all) exception, the recorded answer is
`Error generating answer: <cause>`, which does not name the failing item —
here item `7a` does not occur in the answer. -/
theorem c8_counterexample :
    (generate_item_answer "7a".toList defaultInstruction [] [] [] []
          (.error (.unexpected "boom".toList))).2 =
      "Error generating answer: boom".toList ∧
    containsSub "7a".toList "Error generating answer: boom".toList = false := by
  decide

/-- Claim C8, amended: each oracle failure kind is recorded as data in the
answer with a distinct message; the connection, request and decode messages
name the failing item, while the unexpected-failure message names only the
underlying cause; and regardless of failures every item of a section still
gets an `AnswerRecord` in order. -/
theorem c8_amended (t ins sg gg m st e ef : List Char) :
    ((generate_item_answer t ins sg gg m st (.error .connection)).2 =
        "Error: Ollama connection failed for item '".toList ++ t ++ "'".toList) ∧
    ((generate_item_answer t ins sg gg m st (.error (.request e))).2 =
        "Error: Ollama request failed for item '".toList ++ t ++ "': ".toList ++ e) ∧
    ((generate_item_answer t ins sg gg m st (.error .decode)).2 =
        "Error: Ollama JSON decode failed for item '".toList ++ t ++ "'".toList) ∧
    ((generate_item_answer t ins sg gg m st (.error (.unexpected ef))).2 =
        "Error generating answer: ".toList ++ ef) ∧
    containsSub t ((generate_item_answer t ins sg gg m st (.error .connection)).2) = true ∧
    containsSub t ((generate_item_answer t ins sg gg m st (.error (.request e))).2) = true ∧
    containsSub t ((generate_item_answer t ins sg gg m st (.error .decode)).2) = true ∧
    ((generate_item_answer t ins sg gg m st (.error .connection)).2).take 15 =
      "Error: Ollama c".toList ∧
    ((generate_item_answer t ins sg gg m st (.error (.request e))).2).take 15 =
      "Error: Ollama r".toList ∧
    ((generate_item_answer t ins sg gg m st (.error .decode)).2).take 15 =
      "Error: Ollama J".toList ∧
    ((generate_item_answer t ins sg gg m st (.error (.unexpected ef))).2).take 15 =
      "Error generatin".toList ∧
    (∀ (sec : Section) (m2 gg2 : List Char) (o1 o2 : Except OFail (List Char))
        (io : Nat → Except OFail (List Char)),
        (generate_section_answers sec m2 gg2 o1 o2 io).1.map AnswerRecord.item =
          sec.items.map fun it => (resolveItem it).1) := by
  have hconn : (generate_item_answer t ins sg gg m st (.error .connection)).2 =
      "Error: Ollama connection failed for item '".toList ++ t ++ "'".toList := rfl
  have hreq : (generate_item_answer t ins sg gg m st (.error (.request e))).2 =
      "Error: Ollama request failed for item '".toList ++ t ++ "': ".toList ++ e := rfl
  have hdec : (generate_item_answer t ins sg gg m st (.error .decode)).2 =
      "Error: Ollama JSON decode failed for item '".toList ++ t ++ "'".toList := rfl
  have hune : (generate_item_answer t ins sg gg m st (.error (.unexpected ef))).2 =
      "Error generating answer: ".toList ++ ef := rfl
  refine ⟨hconn, hreq, hdec, hune, ?_, ?_, ?_, ?_, ?_, ?_, ?_, ?_⟩
  · rw [hconn, List.append_assoc]
    exact containsSub_append_self _ _ _
  · rw [hreq, List.append_assoc, List.append_assoc]
    exact containsSub_append_self _ _ _
  · rw [hdec, List.append_assoc]
    exact containsSub_append_self _ _ _
  · rw [hconn, List.append_assoc, List.take_append_of_le_length (by decide)]
    decide
  · rw [hreq, List.append_assoc, List.append_assoc,
      List.take_append_of_le_length (by decide)]
    decide
  · rw [hdec, List.append_assoc, List.take_append_of_le_length (by decide)]
    decide
  · rw [hune, List.take_append_of_le_length (by decide)]
    decide
  · intro sec m2 gg2 o1 o2 io
    exact answersGo_map_item sec.guidance gg2 m2
      (extract_section_text sec m2 o1 o2) io sec.items 0

/-! ## Claim C9 -/

/-- Claim C9: in section-text extraction, when the first oracle call
succeeds but its trimmed result is shorter than 100 characters and the
manuscript exceeds 5000 characters, a failure of the retry call discards
the first call's output entirely: the result is the first 1500 characters
of the manuscript. -/
theorem c9_retry_failure_discards (sec : Section) (manuscript r1 : List Char) (f : OFail)
    (hshort : (strip r1).length < 100) (hlong : 5000 < manuscript.length) :
    extract_section_text sec manuscript (.ok r1) (.error f) = manuscript.take 1500 := by
  simp [extract_section_text, hshort, hlong]

/-- Concrete instantiation of the C9 theorem. -/
theorem c9_witness :
    extract_section_text ⟨"Methods".toList, [], defaultGuidance⟩
        (List.replicate 5001 'a') (.ok "x".toList) (.error .connection) =
      List.replicate 1500 'a' := by
  rw [c9_retry_failure_discards _ _ _ _ (by decide)
    (by rw [List.length_replicate]; decide)]
  rw [show (5001 : Nat) = 1500 + 3501 from rfl, List.replicate_add,
    List.take_left' (by rw [List.length_replicate])]

/-! ## Claim C10 -/

/-- Claim C10: the item-answer resolver is total over both item shapes the
parsers produce: each record's item text is the resolved text (the bare
string itself for PRISMA-style items, the `text` field for dictionary
items), and the prompt sent for each item uses the resolved instruction —
the stored one for dictionary items and the default
`Answer based on the manuscript text.` for bare items. -/
theorem c10_item_resolution (sec : Section) (m gg : List Char)
    (o1 o2 : Except OFail (List Char)) (io : Nat → Except OFail (List Char))
    (t ins : List Char) :
    ((generate_section_answers sec m gg o1 o2 io).1.map AnswerRecord.item =
        sec.items.map fun it => (resolveItem it).1) ∧
    ((generate_section_answers sec m gg o1 o2 io).2 =
        sec.items.map fun it =>
          item_prompt (resolveItem it).1 (resolveItem it).2 sec.guidance
            (item_context (extract_section_text sec m o1 o2) m)) ∧
    resolveItem (ItemShape.bare t) = (t, defaultInstruction) ∧
    resolveItem (ItemShape.full t ins) = (t, ins) := by
  refine ⟨?_, ?_, rfl, rfl⟩
  · exact answersGo_map_item sec.guidance gg m
      (extract_section_text sec m o1 o2) io sec.items 0
  · exact answersGo_prompts sec.guidance gg m
      (extract_section_text sec m o1 o2) io sec.items 0

/-! ## Stripping lemmas -/

theorem length_lstrip_le (l : List Char) : (lstrip l).length ≤ l.length :=
  (List.dropWhile_sublist _).length_le

theorem length_rstrip_le (l : List Char) : (rstrip l).length ≤ l.length := by
  induction l with
  | nil => exact Nat.le_refl _
  | cons c t ih =>
    rw [rstrip]
    split
    · exact Nat.zero_le _
    · simpa using Nat.succ_le_succ ih

theorem rstrip_eq_self_of_length : ∀ {l : List Char},
    (rstrip l).length = l.length → rstrip l = l := by
  intro l
  induction l with
  | nil => intro _; rfl
  | cons c t ih =>
    intro h
    by_cases hc : rstrip t = [] ∧ c.isWhitespace
    · rw [rstrip, if_pos hc] at h
      simp at h
    · rw [rstrip, if_neg hc] at h ⊢
      simp only [List.length_cons, Nat.add_right_cancel_iff] at h
      rw [ih h]

theorem rstrip_eq_self_of_strip {l : List Char} (h : strip l = l) : rstrip l = l := by
  have h1 : (rstrip l).length ≤ l.length := length_rstrip_le l
  have h2 : (strip l).length ≤ (rstrip l).length := length_lstrip_le _
  rw [h] at h2
  exact rstrip_eq_self_of_length (Nat.le_antisymm h1 h2)

theorem lstrip_eq_self_of_strip {l : List Char} (h : strip l = l) : lstrip l = l := by
  have hr := rstrip_eq_self_of_strip h
  rw [strip, hr] at h
  exact h

theorem head_not_ws_of_strip {l : List Char} (h : strip l = l) :
    ∀ c, l.head? = some c → c.isWhitespace = false := by
  intro c hc
  cases l with
  | nil => simp at hc
  | cons x t =>
    have hx : x = c := by simpa using hc
    rw [← hx]
    have hl := lstrip_eq_self_of_strip h
    by_cases hw : x.isWhitespace = true
    · rw [lstrip, List.dropWhile_cons_of_pos hw] at hl
      have hle : (t.dropWhile Char.isWhitespace).length ≤ t.length :=
        (List.dropWhile_sublist _).length_le
      rw [hl] at hle
      simp at hle
    · simpa using hw

theorem rstrip_eq_self_of_last : ∀ (l : List Char),
    (∀ c, l.getLast? = some c → c.isWhitespace = false) → rstrip l = l := by
  intro l
  induction l with
  | nil => intro _; rfl
  | cons x t ih =>
    intro hlast
    cases t with
    | nil =>
      rw [rstrip, if_neg]
      · rfl
      · rintro ⟨-, hw⟩
        rw [hlast x (by simp)] at hw
        exact Bool.noConfusion hw
    | cons y t' =>
      have ht : rstrip (y :: t') = y :: t' :=
        ih fun c hc => hlast c (by rw [List.getLast?_cons_cons]; exact hc)
      rw [rstrip, ht, if_neg]
      rintro ⟨hnil, -⟩
      exact List.noConfusion hnil

theorem last_not_ws_of_rstrip : ∀ {l : List Char}, rstrip l = l →
    ∀ {c : Char}, l.getLast? = some c → c.isWhitespace = false := by
  intro l
  induction l with
  | nil => intro _ c hc; simp at hc
  | cons x t ih =>
    intro h c hc
    cases t with
    | nil =>
      have hx : x = c := by simpa using hc
      rw [← hx]
      by_cases hw : x.isWhitespace = true
      · rw [rstrip, if_pos ⟨rfl, hw⟩] at h
        exact List.noConfusion h
      · simpa using hw
    | cons y t' =>
      have hsub : rstrip (y :: t') = y :: t' := by
        rw [rstrip] at h
        by_cases hcond : rstrip (y :: t') = [] ∧ x.isWhitespace
        · rw [if_pos hcond] at h
          exact List.noConfusion h
        · rw [if_neg hcond] at h
          injection h
      rw [List.getLast?_cons_cons] at hc
      exact ih hsub hc

theorem last_not_ws_of_strip {l : List Char} (h : strip l = l) :
    ∀ c, l.getLast? = some c → c.isWhitespace = false :=
  fun _ hc => last_not_ws_of_rstrip (rstrip_eq_self_of_strip h) hc

theorem strip_eq_self (l : List Char)
    (hhead : ∀ c, l.head? = some c → c.isWhitespace = false)
    (hlast : ∀ c, l.getLast? = some c → c.isWhitespace = false) :
    strip l = l := by
  have hr : rstrip l = l := rstrip_eq_self_of_last l hlast
  rw [strip, hr]
  cases l with
  | nil => rfl
  | cons c t => exact List.dropWhile_cons_of_neg (by simp [hhead c rfl])

theorem head?_append_left {n : List Char} (x : List Char) (h : n ≠ []) :
    (n ++ x).head? = n.head? := by
  cases n with
  | nil => exact absurd rfl h
  | cons c t => rfl

/-! ## Lemmas about `splitFirstStr` and the custom parser -/

theorem splitFirstStr_none_of_not_mem {l : List Char} (h : ':' ∉ l) :
    splitFirstStr [':', ':'] l = none := by
  induction l with
  | nil => rfl
  | cons c rest ih =>
    have hc : c ≠ ':' := fun hh => h (hh ▸ List.mem_cons_self c rest)
    rw [splitFirstStr, if_neg, ih fun hm => h (List.mem_cons_of_mem c hm)]
    intro hp
    simp only [List.isPrefixOf, Bool.and_eq_true, beq_iff_eq] at hp
    exact hc hp.1.symm

theorem containsSub_colonpair_count {l : List Char}
    (h : containsSub [':', ':'] l = true) : 2 ≤ l.count ':' := by
  unfold containsSub at h
  rw [List.any_eq_true] at h
  obtain ⟨t, ht, hp⟩ := h
  rw [List.mem_tails] at ht
  rw [List.isPrefixOf_iff_prefix] at hp
  obtain ⟨t2, rfl⟩ := hp
  obtain ⟨u, rfl⟩ := ht
  simp [List.count_append, List.count_cons]
  omega

theorem not_containsSub_colonpair {n d : List Char} (hn : ':' ∉ n) (hd : ':' ∉ d) :
    containsSub [':', ':'] (n ++ ':' :: d) = false := by
  by_contra h
  rw [Bool.not_eq_false] at h
  have h2 := containsSub_colonpair_count h
  have hcount : (n ++ ':' :: d).count ':' = 1 := by
    rw [List.count_append, List.count_cons]
    rw [List.count_eq_zero.mpr hn, List.count_eq_zero.mpr hd]
    simp
  omega

theorem splitFirstStr_append_sep : ∀ (a b : List Char),
    containsSub [':', ':'] a = false → a.getLast? ≠ some ':' →
    splitFirstStr [':', ':'] (a ++ ':' :: ':' :: b) = some (a, b) := by
  intro a
  induction a with
  | nil =>
    intro b _ _
    rw [List.nil_append, splitFirstStr, if_pos (by simp [List.isPrefixOf])]
    rfl
  | cons c a' ih =>
    intro b h1 h2
    have h1' : containsSub [':', ':'] a' = false := by
      rw [containsSub_cons, Bool.or_eq_false_iff] at h1
      exact h1.2
    have h2' : a'.getLast? ≠ some ':' := by
      cases a' with
      | nil => simp
      | cons d a'' =>
        rw [List.getLast?_cons_cons] at h2
        exact h2
    have hna : ¬ (([':', ':'] : List Char).isPrefixOf
        (c :: (a' ++ ':' :: ':' :: b)) = true) := by
      intro hp
      simp only [List.isPrefixOf, Bool.and_eq_true, beq_iff_eq] at hp
      obtain ⟨hpc, hpr⟩ := hp
      cases a' with
      | nil => exact h2 (by simp [hpc.symm])
      | cons d a'' =>
        rw [List.cons_append] at hpr
        simp only [List.isPrefixOf, Bool.and_eq_true, beq_iff_eq] at hpr
        have : containsSub [':', ':'] (c :: d :: a'') = true := by
          apply containsSub_of_isPrefixOf
          simp [List.isPrefixOf, hpc.symm, hpr.1.symm]
        rw [h1] at this
        exact Bool.noConfusion this
    rw [List.cons_append, splitFirstStr, if_neg hna, ih b h1' h2']

theorem takeUntilChar_append {n : List Char} (d : List Char) (h : ':' ∉ n) :
    takeUntilChar ':' (n ++ ':' :: d) = n := by
  induction n with
  | nil =>
    rw [List.nil_append]
    unfold takeUntilChar
    exact List.takeWhile_cons_of_neg (by simp)
  | cons c t ih =>
    have hc : c ≠ ':' := fun hh => h (hh ▸ List.mem_cons_self c t)
    have ht : ':' ∉ t := fun hm => h (List.mem_cons_of_mem c hm)
    unfold takeUntilChar at ih ⊢
    rw [List.cons_append, List.takeWhile_cons_of_pos (by simp [hc]), ih ht]

theorem customGo_item_run : ∀ (its : List (List Char)),
    (∀ l ∈ its, l ≠ [] ∧ strip l = l ∧ l.head? ≠ some '#' ∧ ':' ∉ l) →
    ∀ (rest : List (List Char)) (cur : List Char) (items : List ItemShape)
      (secs : List Section),
      customGo (its ++ rest) cur items secs =
        customGo rest cur
          (items ++ its.map fun l => ItemShape.full l defaultInstruction) secs := by
  intro its
  induction its with
  | nil => intro _ rest cur items secs; simp
  | cons l its' ih =>
    intro h rest cur items secs
    obtain ⟨hne, hstrip, hhash, hcolon⟩ := h l (List.mem_cons_self l its')
    rw [List.cons_append, customGo, hstrip,
      if_neg (by simp [hne, hhash]),
      splitFirstStr_none_of_not_mem hcolon,
      ih (fun l' hl' => h l' (List.mem_cons_of_mem l hl')) rest cur]
    simp

/-- Processing one `::`-header line of the shape
`name ++ ':' ++ mid ++ "::" ++ instr` (all three parts non-empty,
strip-clean, `name` and `mid` colon-free, `name` shorter than 30 characters
and not starting with `#`): the custom parser flushes the buffer if it is
non-empty under a truthy section name, then opens the new section named
`name` whose first buffered item is the header line's own
`{text, instruction}` pair. -/
theorem customGo_header_step (n d s : List Char) (rest : List (List Char))
    (cur : List Char) (items : List ItemShape) (secs : List Section)
    (hn0 : n ≠ []) (hn1 : strip n = n) (hn2 : ':' ∉ n) (hn3 : n.head? ≠ some '#')
    (hn4 : n.length < 30)
    (hd0 : d ≠ []) (hd1 : strip d = d) (hd2 : ':' ∉ d)
    (hs0 : s ≠ []) (hs1 : strip s = s) :
    customGo ((n ++ ':' :: d ++ ':' :: ':' :: s) :: rest) cur items secs =
      if items ≠ [] ∧ cur ≠ [] then
        customGo rest n [ItemShape.full (n ++ ':' :: d) s]
          (secs ++ [⟨cur, items, defaultGuidance⟩])
      else customGo rest n (items ++ [ItemShape.full (n ++ ':' :: d) s]) secs := by
  have hprefix_ne : n ++ ':' :: d ≠ [] := by
    intro hh
    exact hn0 (List.append_eq_nil.mp hh).1
  have hitem_last : (n ++ ':' :: d).getLast? = d.getLast? := by
    rw [List.getLast?_append_of_ne_nil n (List.cons_ne_nil ':' d)]
    exact List.getLast?_append_of_ne_nil [':'] hd0
  have hitem : strip (n ++ ':' :: d) = n ++ ':' :: d := by
    apply strip_eq_self
    · intro c hc
      rw [head?_append_left _ hn0] at hc
      exact head_not_ws_of_strip hn1 c hc
    · intro c hc
      rw [hitem_last] at hc
      exact last_not_ws_of_strip hd1 c hc
  have hlast_all : (n ++ ':' :: d ++ ':' :: ':' :: s).getLast? = s.getLast? := by
    rw [List.getLast?_append_of_ne_nil _ (List.cons_ne_nil ':' (':' :: s))]
    exact List.getLast?_append_of_ne_nil [':', ':'] hs0
  have hhead_all : (n ++ ':' :: d ++ ':' :: ':' :: s).head? = n.head? := by
    rw [head?_append_left _ hprefix_ne]
    exact head?_append_left _ hn0
  have hl : strip (n ++ ':' :: d ++ ':' :: ':' :: s) =
      n ++ ':' :: d ++ ':' :: ':' :: s := by
    apply strip_eq_self
    · intro c hc
      rw [hhead_all] at hc
      exact head_not_ws_of_strip hn1 c hc
    · intro c hc
      rw [hlast_all] at hc
      exact last_not_ws_of_strip hs1 c hc
  have hne_all : n ++ ':' :: d ++ ':' :: ':' :: s ≠ [] := by
    intro hh
    exact hprefix_ne (List.append_eq_nil.mp hh).1
  have hsplit2 : splitFirstStr [':', ':'] (n ++ ':' :: d ++ ':' :: ':' :: s) =
      some (n ++ ':' :: d, s) := by
    apply splitFirstStr_append_sep _ _ (not_containsSub_colonpair hn2 hd2)
    intro hh
    rw [hitem_last] at hh
    exact hd2 (List.mem_of_getLast?_eq_some hh)
  have hcontains : (n ++ ':' :: d).contains ':' = true := by
    simp [List.contains, List.elem_eq_mem]
  rw [customGo, hl, if_neg (by simp [hne_all, hhead_all, hn3]), hsplit2]
  show (if (strip (n ++ ':' :: d)).contains ':' = true ∧
        (takeUntilChar ':' (strip (n ++ ':' :: d))).length < 30 then
      if items ≠ [] ∧ cur ≠ [] then
        customGo rest (strip (takeUntilChar ':' (strip (n ++ ':' :: d))))
          [ItemShape.full (strip (n ++ ':' :: d)) (strip s)]
          (secs ++ [⟨cur, items, defaultGuidance⟩])
      else
        customGo rest (strip (takeUntilChar ':' (strip (n ++ ':' :: d))))
          (items ++ [ItemShape.full (strip (n ++ ':' :: d)) (strip s)]) secs
    else
      customGo rest cur
        (items ++ [ItemShape.full (strip (n ++ ':' :: d)) (strip s)]) secs) = _
  rw [hitem, hs1, if_pos ⟨hcontains, by rw [takeUntilChar_append d hn2]; exact hn4⟩,
    takeUntilChar_append d hn2, hn1]

/-! ## Claim C5 -/

/-- Claim C5, counterexample: for a two-header `::` input, each returned
section contains its own header line as its FIRST item (text = part before
`::`, instruction = part after), followed by the item lines — so the
sections do not consist of exactly "the items literally between its header
and the next". -/
theorem c5_counterexample :
    ((parseChecklist
          "Methods:design::Describe\nItem A\nResults:out::Summarize\nItem B".toList
          .custom).map fun s => (s.name, s.items)) =
      [("Methods".toList,
        [ItemShape.full "Methods:design".toList "Describe".toList,
         ItemShape.full "Item A".toList defaultInstruction]),
       ("Results".toList,
        [ItemShape.full "Results:out".toList "Summarize".toList,
         ItemShape.full "Item B".toList defaultInstruction])] ∧
    ¬ ((parseChecklist
          "Methods:design::Describe\nItem A\nResults:out::Summarize\nItem B".toList
          .custom).map (fun s => s.items) =
        [[ItemShape.full "Item A".toList defaultInstruction],
         [ItemShape.full "Item B".toList defaultInstruction]]) := by
  decide

/-- Claim C5, amended: under the CUSTOM variant, for any input consisting
of exactly two `::`-delimited header blocks (each header line
`name:mid::instr` having a colon-prefix `name` shorter than 30 characters,
each followed by plain item lines), parse returns exactly 2 sections, the
first named by the first header's prefix and the second by the second
header's prefix, each containing its own header line as its first item
(text = the part before `::`, instruction = the part after) followed by
the items literally between its header and the next, each with the default
instruction. -/
theorem c5_amended (content : List Char) (n1 d1 s1 n2 d2 s2 : List Char)
    (its1 its2 : List (List Char))
    (hsplit : splitOnChar '\n' content =
      (n1 ++ ':' :: d1 ++ ':' :: ':' :: s1) ::
        (its1 ++ (n2 ++ ':' :: d2 ++ ':' :: ':' :: s2) :: its2))
    (hn1 : n1 ≠ [] ∧ strip n1 = n1 ∧ ':' ∉ n1 ∧ n1.head? ≠ some '#' ∧ n1.length < 30)
    (hd1 : d1 ≠ [] ∧ strip d1 = d1 ∧ ':' ∉ d1)
    (hs1 : s1 ≠ [] ∧ strip s1 = s1)
    (hn2 : n2 ≠ [] ∧ strip n2 = n2 ∧ ':' ∉ n2 ∧ n2.head? ≠ some '#' ∧ n2.length < 30)
    (hd2 : d2 ≠ [] ∧ strip d2 = d2 ∧ ':' ∉ d2)
    (hs2 : s2 ≠ [] ∧ strip s2 = s2)
    (hits1 : ∀ l ∈ its1, l ≠ [] ∧ strip l = l ∧ l.head? ≠ some '#' ∧ ':' ∉ l)
    (hits2 : ∀ l ∈ its2, l ≠ [] ∧ strip l = l ∧ l.head? ≠ some '#' ∧ ':' ∉ l) :
    parseChecklist content .custom =
      [⟨n1, ItemShape.full (n1 ++ ':' :: d1) s1 ::
          its1.map (fun l => ItemShape.full l defaultInstruction), defaultGuidance⟩,
       ⟨n2, ItemShape.full (n2 ++ ':' :: d2) s2 ::
          its2.map (fun l => ItemShape.full l defaultInstruction), defaultGuidance⟩] := by
  obtain ⟨hn10, hn11, hn12, hn13, hn14⟩ := hn1
  obtain ⟨hd10, hd11, hd12⟩ := hd1
  obtain ⟨hs10, hs11⟩ := hs1
  obtain ⟨hn20, hn21, hn22, hn23, hn24⟩ := hn2
  obtain ⟨hd20, hd21, hd22⟩ := hd2
  obtain ⟨hs20, hs21⟩ := hs2
  show process_custom_checklist content = _
  unfold process_custom_checklist
  rw [hsplit]
  rw [customGo_header_step n1 d1 s1 _ _ _ _ hn10 hn11 hn12 hn13 hn14 hd10 hd11 hd12
    hs10 hs11]
  rw [if_neg (by simp)]
  rw [List.nil_append]
  rw [customGo_item_run its1 hits1]
  rw [customGo_header_step n2 d2 s2 _ _ _ _ hn20 hn21 hn22 hn23 hn24 hd20 hd21 hd22
    hs20 hs21]
  rw [if_pos ⟨by simp, hn10⟩]
  conv_lhs => rw [← List.append_nil its2]
  rw [customGo_item_run its2 hits2]
  rw [customGo, if_neg (by simp)]
  simp

/-! ## Character-level lemmas for the answer cleanup -/

theorem char_toNat_ofNat_valid (n : Nat) (h : n.isValidChar) :
    (Char.ofNat n).toNat = n := by
  rw [Char.ofNat, dif_pos h]
  simp [Char.ofNatAux, Char.toNat, UInt32.toNat]

theorem toLower_eq_colon {c : Char} (h : c.toLower = ':') : c = ':' := by
  rw [Char.toLower] at h
  split at h
  · exfalso
    rename_i hcond
    have hv := congrArg Char.toNat h
    rw [char_toNat_ofNat_valid (c.toNat + 32) (Or.inl (by omega))] at hv
    have : (':' : Char).toNat = 58 := by decide
    omega
  · exact h

theorem ws_toLower_self {c : Char} (h : c.isWhitespace = true) : c.toLower = c := by
  simp [Char.isWhitespace] at h
  rcases h with ((h | h) | h) | h <;> (subst h; decide)

theorem rstrip_append {p : List Char} (q : List Char)
    (h : ∀ c, p.getLast? = some c → c.isWhitespace = false) :
    rstrip (p ++ q) = p ++ rstrip q := by
  induction p with
  | nil => rfl
  | cons c p' ih =>
    cases p' with
    | nil =>
      have hc : c.isWhitespace = false := h c (by simp)
      rw [List.cons_append, List.nil_append, rstrip, if_neg]
      · rfl
      · rintro ⟨-, hw⟩
        rw [hc] at hw
        exact Bool.noConfusion hw
    | cons x p'' =>
      have ih' := ih fun c' hc' => h c' (by rw [List.getLast?_cons_cons]; exact hc')
      rw [List.cons_append, rstrip, ih', if_neg]
      · rfl
      · rintro ⟨hnil, -⟩
        exact absurd hnil (by simp)

theorem rstrip_idem (l : List Char) : rstrip (rstrip l) = rstrip l := by
  induction l with
  | nil => rfl
  | cons c t ih =>
    by_cases hc : rstrip t = [] ∧ c.isWhitespace = true
    · rw [rstrip, if_pos hc]
      rfl
    · rw [rstrip, if_neg hc, rstrip, ih, if_neg hc]

theorem afterFirstChar_cons_ne {x c : Char} (l : List Char) (h : x ≠ c) :
    afterFirstChar c (x :: l) = afterFirstChar c l := by
  rw [afterFirstChar, if_neg h]

theorem afterFirstChar_cons_eq (c : Char) (l : List Char) :
    afterFirstChar c (c :: l) = l := by
  rw [afterFirstChar, if_pos rfl]

/-- The core of C7: on a raw response whose first seven characters
case-insensitively spell `answer:` (the seventh therefore being `:`
itself), the code's cleanup equals the specification's strip-to-after-the-
first-colon rule. -/
theorem clean_answer_eq_cleanSpec_aux
    (c0 c1 c2 c3 c4 c5 : Char) (rest : List Char)
    (h0 : c0.toLower = 'a') (h1 : c1.toLower = 'n') (h2 : c2.toLower = 's')
    (h3 : c3.toLower = 'w') (h4 : c4.toLower = 'e') (h5 : c5.toLower = 'r') :
    clean_answer (c0 :: c1 :: c2 :: c3 :: c4 :: c5 :: ':' :: rest) =
      cleanSpec (c0 :: c1 :: c2 :: c3 :: c4 :: c5 :: ':' :: rest) := by
  have hne0 : c0 ≠ ':' := fun hh => by rw [hh] at h0; exact absurd h0 (by decide)
  have hne1 : c1 ≠ ':' := fun hh => by rw [hh] at h1; exact absurd h1 (by decide)
  have hne2 : c2 ≠ ':' := fun hh => by rw [hh] at h2; exact absurd h2 (by decide)
  have hne3 : c3 ≠ ':' := fun hh => by rw [hh] at h3; exact absurd h3 (by decide)
  have hne4 : c4 ≠ ':' := fun hh => by rw [hh] at h4; exact absurd h4 (by decide)
  have hne5 : c5 ≠ ':' := fun hh => by rw [hh] at h5; exact absurd h5 (by decide)
  have hws0 : c0.isWhitespace = false := by
    by_cases hw : c0.isWhitespace = true
    · rw [ws_toLower_self hw] at h0
      rw [h0] at hw
      exact absurd hw (by decide)
    · simpa using hw
  have hlastp : ∀ c, ([c0, c1, c2, c3, c4, c5, ':'] : List Char).getLast? = some c →
      c.isWhitespace = false := by
    intro c hc
    simp only [List.getLast?_cons_cons] at hc
    have hcc : ':' = c := by simpa using hc
    rw [← hcc]
    decide
  have hrs : rstrip (c0 :: c1 :: c2 :: c3 :: c4 :: c5 :: ':' :: rest) =
      c0 :: c1 :: c2 :: c3 :: c4 :: c5 :: ':' :: rstrip rest :=
    rstrip_append (p := [c0, c1, c2, c3, c4, c5, ':']) rest hlastp
  have ha : strip (c0 :: c1 :: c2 :: c3 :: c4 :: c5 :: ':' :: rest) =
      c0 :: c1 :: c2 :: c3 :: c4 :: c5 :: ':' :: rstrip rest := by
    rw [strip, hrs, lstrip]
    exact List.dropWhile_cons_of_neg (by simp [hws0])
  have hmap : List.map Char.toLower [c0, c1, c2, c3, c4, c5, ':'] =
      "answer:".toList := by
    simp [h0, h1, h2, h3, h4, h5]
  have hcond : "answer:".toList.isPrefixOf
      (lowerStr (c0 :: c1 :: c2 :: c3 :: c4 :: c5 :: ':' :: rstrip rest)) = true := by
    show "answer:".toList.isPrefixOf
      (lowerStr ([c0, c1, c2, c3, c4, c5, ':'] ++ rstrip rest)) = true
    rw [lowerStr, List.map_append, hmap]
    exact isPrefixOf_append_self _ _
  have hafter1 : afterFirstChar ':' (c0 :: c1 :: c2 :: c3 :: c4 :: c5 :: ':' :: rest) =
      rest := by
    rw [afterFirstChar_cons_ne _ hne0, afterFirstChar_cons_ne _ hne1,
      afterFirstChar_cons_ne _ hne2, afterFirstChar_cons_ne _ hne3,
      afterFirstChar_cons_ne _ hne4, afterFirstChar_cons_ne _ hne5,
      afterFirstChar_cons_eq]
  have hafter2 : afterFirstChar ':'
      (c0 :: c1 :: c2 :: c3 :: c4 :: c5 :: ':' :: rstrip rest) = rstrip rest := by
    rw [afterFirstChar_cons_ne _ hne0, afterFirstChar_cons_ne _ hne1,
      afterFirstChar_cons_ne _ hne2, afterFirstChar_cons_ne _ hne3,
      afterFirstChar_cons_ne _ hne4, afterFirstChar_cons_ne _ hne5,
      afterFirstChar_cons_eq]
  have hmem1 : (c0 :: c1 :: c2 :: c3 :: c4 :: c5 :: ':' :: rest).contains ':' = true := by
    simp [List.contains, List.elem_eq_mem]
  have hmem2 : (c0 :: c1 :: c2 :: c3 :: c4 :: c5 :: ':' :: rstrip rest).contains ':' =
      true := by
    simp [List.contains, List.elem_eq_mem]
  rw [clean_answer, ha, if_pos (Or.inr hcond), lastPartAfterChar, if_pos hmem2, hafter2,
    cleanSpec, lastPartAfterChar, if_pos hmem1, hafter1]
  rw [show strip (rstrip rest) = strip rest from by rw [strip, strip, rstrip_idem]]

/-! ## Claim C7 -/

/-- Claim C7: whenever the oracle's raw response is empty or starts
case-insensitively with `answer:`, the item-answer cleanup strips
everything up to and including the first `:` and trims, substituting the
fixed string `Information not found in the provided text snippet.` when the
result is empty — i.e. it agrees with the specification's cleanup rule; in
particular the raw response `Answer: Yes, in section 3` is post-processed
to `Yes, in section 3`. -/
theorem c7_cleanup :
    (∀ raw : List Char,
        raw = [] ∨ "answer:".toList.isPrefixOf (lowerStr raw) = true →
        clean_answer raw = cleanSpec raw) ∧
    clean_answer "Answer: Yes, in section 3".toList = "Yes, in section 3".toList := by
  constructor
  · rintro raw (rfl | hpre)
    · decide
    · rw [List.isPrefixOf_iff_prefix] at hpre
      obtain ⟨t, ht⟩ := hpre
      rw [show "answer:".toList = ['a', 'n', 's', 'w', 'e', 'r', ':'] from rfl] at ht
      cases raw with
      | nil => exact absurd ht (by simp [lowerStr])
      | cons c0 r0 =>
      rw [lowerStr, List.map_cons] at ht
      rw [List.cons_append, List.cons.injEq] at ht
      obtain ⟨h0, ht⟩ := ht
      cases r0 with
      | nil => exact absurd ht (by simp)
      | cons c1 r1 =>
      rw [List.map_cons] at ht
      rw [List.cons_append, List.cons.injEq] at ht
      obtain ⟨h1, ht⟩ := ht
      cases r1 with
      | nil => exact absurd ht (by simp)
      | cons c2 r2 =>
      rw [List.map_cons] at ht
      rw [List.cons_append, List.cons.injEq] at ht
      obtain ⟨h2, ht⟩ := ht
      cases r2 with
      | nil => exact absurd ht (by simp)
      | cons c3 r3 =>
      rw [List.map_cons] at ht
      rw [List.cons_append, List.cons.injEq] at ht
      obtain ⟨h3, ht⟩ := ht
      cases r3 with
      | nil => exact absurd ht (by simp)
      | cons c4 r4 =>
      rw [List.map_cons] at ht
      rw [List.cons_append, List.cons.injEq] at ht
      obtain ⟨h4, ht⟩ := ht
      cases r4 with
      | nil => exact absurd ht (by simp)
      | cons c5 r5 =>
      rw [List.map_cons] at ht
      rw [List.cons_append, List.cons.injEq] at ht
      obtain ⟨h5, ht⟩ := ht
      cases r5 with
      | nil => exact absurd ht (by simp)
      | cons c6 r6 =>
      rw [List.map_cons] at ht
      rw [List.cons_append, List.cons.injEq] at ht
      obtain ⟨h6, ht⟩ := ht
      obtain rfl : c6 = ':' := toLower_eq_colon h6.symm
      exact clean_answer_eq_cleanSpec_aux c0 c1 c2 c3 c4 c5 r6
        h0.symm h1.symm h2.symm h3.symm h4.symm h5.symm
  · decide

/-- Concrete instantiation of the C7 theorem's universal part. -/
theorem c7_witness :
    clean_answer "ANSWER:  ok  ".toList = cleanSpec "ANSWER:  ok  ".toList :=
  c7_cleanup.1 _ (Or.inr (by decide))

/-- Concrete instantiation of the amended C5 theorem. -/
theorem c5_witness :
    parseChecklist
        "Methods:design::Describe\nItem A\nResults:out::Summarize\nItem B".toList
        .custom =
      [⟨"Methods".toList,
        [ItemShape.full "Methods:design".toList "Describe".toList,
         ItemShape.full "Item A".toList defaultInstruction], defaultGuidance⟩,
       ⟨"Results".toList,
        [ItemShape.full "Results:out".toList "Summarize".toList,
         ItemShape.full "Item B".toList defaultInstruction], defaultGuidance⟩] := by
  have h := c5_amended
    "Methods:design::Describe\nItem A\nResults:out::Summarize\nItem B".toList
    "Methods".toList "design".toList "Describe".toList
    "Results".toList "out".toList "Summarize".toList
    ["Item A".toList] ["Item B".toList]
    (by decide) (by decide) (by decide) (by decide) (by decide) (by decide) (by decide)
    (by decide) (by decide)
  rw [h]
  decide

end CheckSupport
